import Mathlib

/-!
Verification of the parallel statistical-reduction engine
(itkStatisticsImageFilter) and of itkBinaryStatisticsOpeningImageFilter.

The statistics engine's member functions are declared in
src/Modules/Filtering/ImageStatistics/include/itkStatisticsImageFilter.h,
whose private state is
  CompensatedSummation m_ThreadSum, m_SumOfSquares;
  SizeValueType m_Count; PixelType m_ThreadMin, m_ThreadMax;
The bodies live in itkStatisticsImageFilter.hxx, which is not part of this
source slice, so the accumulation, merge and derivation steps are modelled
from the spec (sections 3, 4 and 7 of spec.md).  Reals are embedded as ℚ
(exact arithmetic), so compensated summation is exact and all "within
floating tolerance" clauses become exact equalities.

itkBinaryStatisticsOpeningImageFilter.txx is present in full and is
embedded directly.
-/

namespace ITK

/-- Modelled from the spec: the CompensatedAccumulator of section 4.1 (the
missing itkCompensatedSummation.h), a Kahan-style running sum with a
correction term, embedded over exact ℚ. -/
@[ext]
structure CompensatedSummation where
  accumulatedSum : ℚ
  compensation : ℚ
deriving DecidableEq

/-- Modelled from the spec: a fresh accumulator holds sum 0 and correction 0. -/
def CompensatedSummation.empty : CompensatedSummation := ⟨0, 0⟩

/-- Modelled from the spec: Kahan compensated addition —
compensatedInput = element − compensation; tempSum = sum + compensatedInput;
new compensation = (tempSum − sum) − compensatedInput; new sum = tempSum. -/
def CompensatedSummation.AddElement (a : CompensatedSummation) (e : ℚ) :
    CompensatedSummation :=
  ⟨a.accumulatedSum + (e - a.compensation),
   (a.accumulatedSum + (e - a.compensation) - a.accumulatedSum) -
     (e - a.compensation)⟩

/-- Modelled from the spec: the accessor returning the current best estimate
of the sum (the running accumulated sum). -/
def CompensatedSummation.GetSum (a : CompensatedSummation) : ℚ :=
  a.accumulatedSum

/-- Modelled from the spec (section 4.1, merge): combine two accumulators by
feeding the other's running sum and its correction term into this one, so
the correction information is not dropped across partitions. -/
def CompensatedSummation.merge (a b : CompensatedSummation) :
    CompensatedSummation :=
  (a.AddElement b.accumulatedSum).AddElement (-b.compensation)

/-- Numeric-traits data for the sample (pixel) type: its largest and smallest
representable values, used as the min/max sentinels (spec section 3). -/
structure PixelTraits where
  maxRep : ℚ
  minRep : ℚ

/-- Modelled from the spec: PartialStatistics (section 3) — the state of the
per-partition accumulator; GlobalStatistics has the same shape.  These are
the fields m_Count, m_ThreadMin, m_ThreadMax, m_ThreadSum, m_SumOfSquares
declared in itkStatisticsImageFilter.h. -/
@[ext]
structure PartialStatistics where
  count : ℕ
  min : ℚ
  max : ℚ
  sum : CompensatedSummation
  sumOfSquares : CompensatedSummation
deriving DecidableEq

/-- Modelled from the spec: initial per-partition state — count 0, min at the
sample type's maximum representable value, max at its minimum, empty sums.
This is also what BeforeThreadedGenerateData resets the filter state to. -/
def PartialStatistics.init (t : PixelTraits) : PartialStatistics :=
  ⟨0, t.maxRep, t.minRep, .empty, .empty⟩

/-- Modelled from the spec (section 4.2): visit one sample — increment count,
update min/max by simple comparisons (ties keep the first-seen value), feed
the value into sum and its square into sumOfSquares. -/
def PartialStatistics.visit (s : PartialStatistics) (x : ℚ) :
    PartialStatistics :=
  { count := s.count + 1
    min := if x < s.min then x else s.min
    max := if x > s.max then x else s.max
    sum := s.sum.AddElement x
    sumOfSquares := s.sumOfSquares.AddElement (x * x) }

/-- Modelled from the spec: one partition's accumulation — visit every sample
of the assigned region once, in region order (DynamicThreadedGenerateData's
loop body). -/
def PartialStatistics.accumulate (t : PixelTraits) (l : List ℚ) :
    PartialStatistics :=
  l.foldl PartialStatistics.visit (PartialStatistics.init t)

/-- Modelled from the spec (section 4.3, step 3): merge two partials —
counts add, min/max combine by comparison, the compensated accumulators
merge.  This is the step performed under m_Mutex. -/
def PartialStatistics.merge (a b : PartialStatistics) : PartialStatistics :=
  ⟨a.count + b.count, Min.min a.min b.min, Max.max a.max b.max,
   a.sum.merge b.sum, a.sumOfSquares.merge b.sumOfSquares⟩

/-- Modelled from the spec: the reduction driver — one PartialStatistics per
partition, all merged (in list order) into the global state, which starts
from the sentinel-initialized state left by BeforeThreadedGenerateData. -/
def reduceParts (t : PixelTraits) (parts : List (List ℚ)) :
    PartialStatistics :=
  (parts.map (PartialStatistics.accumulate t)).foldl
    PartialStatistics.merge (PartialStatistics.init t)

/-- The derived outputs of the filter (the decorated outputs read by
GetMinimum, GetMaximum, GetMean, GetVariance, GetSum, GetSumOfSquares);
sigma is derived separately since square roots leave ℚ. -/
structure StatisticsResult where
  count : ℕ
  minimum : ℚ
  maximum : ℚ
  sum : ℚ
  sumOfSquares : ℚ
  mean : ℚ
  variance : ℚ
deriving DecidableEq

/-- Modelled from the spec (section 4.4): AfterThreadedGenerateData derives
mean = sum/count (0 when count = 0) and the Bessel-corrected sample
variance (0 when count ≤ 1) from the merged totals, and passes
count/min/max/sum/sumOfSquares through. -/
def AfterThreadedGenerateData (g : PartialStatistics) : StatisticsResult :=
  let sum := g.sum.GetSum
  let sumOfSquares := g.sumOfSquares.GetSum
  let mean := if 0 < g.count then sum / (g.count : ℚ) else 0
  let variance :=
    if 1 < g.count then
      (sumOfSquares - (g.count : ℚ) * mean * mean) / ((g.count : ℚ) - 1)
    else 0
  ⟨g.count, g.min, g.max, sum, sumOfSquares, mean, variance⟩

/-- Modelled from the spec (section 4.4): sigma = sqrt(variance), with the
variance clamped to 0 before the square root. -/
noncomputable def StatisticsResult.sigma (r : StatisticsResult) : ℝ :=
  Real.sqrt (Max.max (r.variance : ℝ) 0)

/-- Modelled from the spec: one full reduction run over a given partitioning
of the input array. -/
def runReduction (t : PixelTraits) (parts : List (List ℚ)) :
    StatisticsResult :=
  AfterThreadedGenerateData (reduceParts t parts)

/-- Modelled from the spec: BeforeThreadedGenerateData re-initializes every
accumulator field of the filter, regardless of what a previous run left. -/
def BeforeThreadedGenerateData (t : PixelTraits) (_s : PartialStatistics) :
    PartialStatistics :=
  PartialStatistics.init t

/-- Modelled from the spec: a run of the filter object — reset the persistent
state, accumulate each partition, merge, derive.  Returns the filter's
persistent state after the run together with the outputs. -/
def runFilter (t : PixelTraits) (s : PartialStatistics)
    (parts : List (List ℚ)) : PartialStatistics × StatisticsResult :=
  let g := (parts.map (PartialStatistics.accumulate t)).foldl
    PartialStatistics.merge (BeforeThreadedGenerateData t s)
  (g, AfterThreadedGenerateData g)

/-- Attribute selectors of the label objects used by
itkBinaryStatisticsOpeningImageFilter.txx (LabelObjectType attribute
constants referenced there: MEAN, PERIMETER, ROUNDNESS, FERET_DIAMETER;
further attributes exist and behave like MEAN for the configuration logic,
VARIANCE stands in for them). -/
inductive AttributeType where
  | MEAN
  | VARIANCE
  | PERIMETER
  | ROUNDNESS
  | FERET_DIAMETER
deriving DecidableEq

/-- Numeric traits of the output pixel type: NumericTraits::NonpositiveMin()
and NumericTraits::max(), kept abstract over the pixel carrier type. -/
structure OutputPixelTraits (α : Type) where
  NonpositiveMin : α
  maxValue : α

/-- The member state of BinaryStatisticsOpeningImageFilter set by its
constructor (itkBinaryStatisticsOpeningImageFilter.txx, lines 26-37). -/
structure BinaryStatisticsOpeningImageFilter (α : Type) where
  m_OutputBackgroundValue : α
  m_InputForegroundValue : α
  m_FullyConnected : Bool
  m_ReverseOrdering : Bool
  m_Lambda : ℚ
  m_Attribute : AttributeType
  numberOfRequiredInputs : ℕ

/-- The constructor body: background value NonpositiveMin, foreground value
max, FullyConnected and ReverseOrdering false, Lambda 0, Attribute MEAN,
and SetNumberOfRequiredInputs(2). -/
def mkBinaryStatisticsOpeningImageFilter {α : Type}
    (nt : OutputPixelTraits α) : BinaryStatisticsOpeningImageFilter α :=
  { m_OutputBackgroundValue := nt.NonpositiveMin
    m_InputForegroundValue := nt.maxValue
    m_FullyConnected := false
    m_ReverseOrdering := false
    m_Lambda := 0
    m_Attribute := .MEAN
    numberOfRequiredInputs := 2 }

/-- The compute flags of the internal LabelObjectValuatorType instance
configured by GenerateData. -/
structure ValuatorState where
  computeHistogram : Bool
  computePerimeter : Bool
  computeFeretDiameter : Bool
deriving DecidableEq

/-- Modelled from the spec: the valuator's constructor defaults are in
itkStatisticsLabelMapFilter / itkShapeLabelMapFilter, which are not part of
this source slice — perimeter and Feret-diameter computation start
disabled, histogram computation starts enabled. -/
def defaultValuatorState : ValuatorState :=
  ⟨true, false, false⟩

/-- GenerateData's configuration of the valuator
(itkBinaryStatisticsOpeningImageFilter.txx, lines 86-99):
SetComputeHistogram(false) always; SetComputePerimeter(true) when the
attribute is PERIMETER or ROUNDNESS; SetComputeFeretDiameter(true) when the
attribute is FERET_DIAMETER. -/
def configureValuator (attr : AttributeType) : ValuatorState :=
  let v := { defaultValuatorState with computeHistogram := false }
  let v := if attr = .PERIMETER ∨ attr = .ROUNDNESS then
    { v with computePerimeter := true } else v
  if attr = .FERET_DIAMETER then
    { v with computeFeretDiameter := true } else v

/-- The per-image state GenerateInputRequestedRegion and
EnlargeOutputRequestedRegion act on: the requested region, the largest
possible region, and a payload standing for all remaining image state. -/
structure ImageState (ρ δ : Type) where
  requestedRegion : ρ
  largestPossibleRegion : ρ
  payload : δ

/-- GenerateInputRequestedRegion (txx lines 39-53): first the superclass
implementation runs — its only effect is on the input's requested region,
abstracted by the superRequested parameter — then, when the input is
non-null, the input's requested region is set to its largest possible
region. -/
def GenerateInputRequestedRegion {ρ δ : Type} (superRequested : ρ) :
    Option (ImageState ρ δ) → Option (ImageState ρ δ)
  | none => none
  | some img =>
    let afterSuper := { img with requestedRegion := superRequested }
    some { afterSuper with
           requestedRegion := afterSuper.largestPossibleRegion }

/-- EnlargeOutputRequestedRegion (txx lines 56-63): the output's requested
region is set to the output's largest possible region. -/
def EnlargeOutputRequestedRegion {ρ δ : Type} (out : ImageState ρ δ) :
    ImageState ρ δ :=
  { out with requestedRegion := out.largestPossibleRegion }

/-! Helper lemmas about the compensated accumulator.  Over exact ℚ the
correction term vanishes after every addition, so accumulation and merging
are exact. -/

theorem CompensatedSummation.AddElement_eq (a : CompensatedSummation)
    (e : ℚ) :
    a.AddElement e = ⟨a.accumulatedSum - a.compensation + e, 0⟩ := by
  rw [CompensatedSummation.AddElement, CompensatedSummation.mk.injEq]
  constructor <;> ring

theorem CompensatedSummation.merge_eq (a b : CompensatedSummation) :
    a.merge b =
      ⟨(a.accumulatedSum - a.compensation) +
        (b.accumulatedSum - b.compensation), 0⟩ := by
  rw [CompensatedSummation.merge, CompensatedSummation.AddElement_eq,
    CompensatedSummation.AddElement_eq, CompensatedSummation.mk.injEq]
  constructor <;> ring

theorem ite_lt_eq_min (x m : ℚ) :
    (if x < m then x else m) = Min.min m x := by
  rcases le_or_lt m x with h | h
  · rw [if_neg (not_lt.2 h), min_eq_left h]
  · rw [if_pos h, min_eq_right h.le]

theorem ite_gt_eq_max (x m : ℚ) :
    (if x > m then x else m) = Max.max m x := by
  rcases le_or_lt x m with h | h
  · rw [if_neg (not_lt.2 h), max_eq_left h]
  · rw [if_pos h, max_eq_right h.le]

theorem count_foldl_visit (l : List ℚ) :
    ∀ s : PartialStatistics,
      (l.foldl PartialStatistics.visit s).count = s.count + l.length := by
  induction l with
  | nil => intro s; simp
  | cons x xs ih =>
    intro s
    rw [List.foldl_cons, ih]
    simp [PartialStatistics.visit]
    omega

theorem min_foldl_visit (l : List ℚ) :
    ∀ s : PartialStatistics,
      (l.foldl PartialStatistics.visit s).min = l.foldl Min.min s.min := by
  induction l with
  | nil => intro s; rfl
  | cons x xs ih =>
    intro s
    rw [List.foldl_cons, ih, List.foldl_cons]
    congr 1
    exact ite_lt_eq_min x s.min

theorem max_foldl_visit (l : List ℚ) :
    ∀ s : PartialStatistics,
      (l.foldl PartialStatistics.visit s).max = l.foldl Max.max s.max := by
  induction l with
  | nil => intro s; rfl
  | cons x xs ih =>
    intro s
    rw [List.foldl_cons, ih, List.foldl_cons]
    congr 1
    exact ite_gt_eq_max x s.max

theorem sum_foldl_visit (l : List ℚ) :
    ∀ s : PartialStatistics, s.sum.compensation = 0 →
      (l.foldl PartialStatistics.visit s).sum =
        ⟨s.sum.accumulatedSum + l.sum, 0⟩ := by
  induction l with
  | nil =>
    intro s hs
    apply CompensatedSummation.ext
    · simp
    · simpa using hs
  | cons x xs ih =>
    intro s hs
    rw [List.foldl_cons, ih (s.visit x) (by
      simp [PartialStatistics.visit, CompensatedSummation.AddElement_eq])]
    apply CompensatedSummation.ext
    · simp [PartialStatistics.visit, CompensatedSummation.AddElement_eq, hs]
      ring
    · rfl

theorem sumOfSquares_foldl_visit (l : List ℚ) :
    ∀ s : PartialStatistics, s.sumOfSquares.compensation = 0 →
      (l.foldl PartialStatistics.visit s).sumOfSquares =
        ⟨s.sumOfSquares.accumulatedSum + (l.map (fun x => x * x)).sum, 0⟩ := by
  induction l with
  | nil =>
    intro s hs
    apply CompensatedSummation.ext
    · simp
    · simpa using hs
  | cons x xs ih =>
    intro s hs
    rw [List.foldl_cons, ih (s.visit x) (by
      simp [PartialStatistics.visit, CompensatedSummation.AddElement_eq])]
    apply CompensatedSummation.ext
    · simp [PartialStatistics.visit, CompensatedSummation.AddElement_eq, hs]
      ring
    · rfl

/-- Closed form of one partition's accumulation: length, fold of min from the
maxRep sentinel, fold of max from the minRep sentinel, exact sum, exact sum
of squares. -/
theorem accumulate_eq (t : PixelTraits) (l : List ℚ) :
    PartialStatistics.accumulate t l =
      ⟨l.length, l.foldl Min.min t.maxRep, l.foldl Max.max t.minRep,
       ⟨l.sum, 0⟩, ⟨(l.map (fun x => x * x)).sum, 0⟩⟩ := by
  apply PartialStatistics.ext
  · simpa [PartialStatistics.accumulate, PartialStatistics.init] using
      count_foldl_visit l (PartialStatistics.init t)
  · exact min_foldl_visit l (PartialStatistics.init t)
  · exact max_foldl_visit l (PartialStatistics.init t)
  · simpa [PartialStatistics.accumulate, PartialStatistics.init,
      CompensatedSummation.empty] using
      sum_foldl_visit l (PartialStatistics.init t) rfl
  · simpa [PartialStatistics.accumulate, PartialStatistics.init,
      CompensatedSummation.empty] using
      sumOfSquares_foldl_visit l (PartialStatistics.init t) rfl

theorem foldl_min_min (l : List ℚ) :
    ∀ a b : ℚ, l.foldl Min.min (Min.min a b) =
      Min.min a (l.foldl Min.min b) := by
  induction l with
  | nil => intro a b; rfl
  | cons x xs ih =>
    intro a b
    rw [List.foldl_cons, List.foldl_cons, min_assoc, ih]

theorem foldl_max_max (l : List ℚ) :
    ∀ a b : ℚ, l.foldl Max.max (Max.max a b) =
      Max.max a (l.foldl Max.max b) := by
  induction l with
  | nil => intro a b; rfl
  | cons x xs ih =>
    intro a b
    rw [List.foldl_cons, List.foldl_cons, max_assoc, ih]

theorem foldl_min_le_init (l : List ℚ) :
    ∀ a : ℚ, l.foldl Min.min a ≤ a := by
  induction l with
  | nil => intro a; exact le_refl a
  | cons x xs ih =>
    intro a
    rw [List.foldl_cons]
    exact le_trans (ih (Min.min a x)) (min_le_left a x)

theorem foldl_max_init_le (l : List ℚ) :
    ∀ a : ℚ, a ≤ l.foldl Max.max a := by
  induction l with
  | nil => intro a; exact le_refl a
  | cons x xs ih =>
    intro a
    rw [List.foldl_cons]
    exact le_trans (le_max_left a x) (ih (Max.max a x))

theorem foldl_min_le_mem (l : List ℚ) :
    ∀ a : ℚ, ∀ x ∈ l, l.foldl Min.min a ≤ x := by
  induction l with
  | nil => intro a x hx; cases hx
  | cons y ys ih =>
    intro a x hx
    rw [List.foldl_cons]
    rcases List.mem_cons.1 hx with h | h
    · subst h
      exact le_trans (foldl_min_le_init ys (Min.min a x)) (min_le_right a x)
    · exact ih (Min.min a y) x h

theorem foldl_max_mem_le (l : List ℚ) :
    ∀ a : ℚ, ∀ x ∈ l, x ≤ l.foldl Max.max a := by
  induction l with
  | nil => intro a x hx; cases hx
  | cons y ys ih =>
    intro a x hx
    rw [List.foldl_cons]
    rcases List.mem_cons.1 hx with h | h
    · subst h
      exact le_trans (le_max_right a x) (foldl_max_init_le ys (Max.max a x))
    · exact ih (Max.max a y) x h

theorem foldl_min_mem_or (l : List ℚ) :
    ∀ a : ℚ, l.foldl Min.min a ∈ l ∨ l.foldl Min.min a = a := by
  induction l with
  | nil => intro a; exact Or.inr rfl
  | cons x xs ih =>
    intro a
    rw [List.foldl_cons]
    rcases ih (Min.min a x) with h | h
    · exact Or.inl (List.mem_cons_of_mem x h)
    · rcases min_choice a x with hc | hc
      · exact Or.inr (h.trans hc)
      · refine Or.inl ?_
        rw [h, hc]
        exact List.mem_cons_self x xs

theorem foldl_max_mem_or (l : List ℚ) :
    ∀ a : ℚ, l.foldl Max.max a ∈ l ∨ l.foldl Max.max a = a := by
  induction l with
  | nil => intro a; exact Or.inr rfl
  | cons x xs ih =>
    intro a
    rw [List.foldl_cons]
    rcases ih (Max.max a x) with h | h
    · exact Or.inl (List.mem_cons_of_mem x h)
    · rcases max_choice a x with hc | hc
      · exact Or.inr (h.trans hc)
      · refine Or.inl ?_
        rw [h, hc]
        exact List.mem_cons_self x xs

/-- Merging the accumulations of two regions equals accumulating their
concatenation: the key exactness fact behind partition independence. -/
theorem merge_accumulate (t : PixelTraits) (l1 l2 : List ℚ) :
    (PartialStatistics.accumulate t l1).merge
      (PartialStatistics.accumulate t l2) =
      PartialStatistics.accumulate t (l1 ++ l2) := by
  rw [accumulate_eq, accumulate_eq, accumulate_eq, PartialStatistics.merge]
  apply PartialStatistics.ext
  · simp
  · show Min.min (l1.foldl Min.min t.maxRep) (l2.foldl Min.min t.maxRep) =
      (l1 ++ l2).foldl Min.min t.maxRep
    have h1 : (l1 ++ l2).foldl Min.min t.maxRep =
        l2.foldl Min.min (l1.foldl Min.min t.maxRep) :=
      List.foldl_append Min.min t.maxRep l1 l2
    have h2 : l2.foldl Min.min (l1.foldl Min.min t.maxRep) =
        l2.foldl Min.min (Min.min (l1.foldl Min.min t.maxRep) t.maxRep) := by
      rw [min_eq_left (foldl_min_le_init l1 t.maxRep)]
    exact (h1.trans (h2.trans
      (foldl_min_min l2 (l1.foldl Min.min t.maxRep) t.maxRep))).symm
  · show Max.max (l1.foldl Max.max t.minRep) (l2.foldl Max.max t.minRep) =
      (l1 ++ l2).foldl Max.max t.minRep
    have h1 : (l1 ++ l2).foldl Max.max t.minRep =
        l2.foldl Max.max (l1.foldl Max.max t.minRep) :=
      List.foldl_append Max.max t.minRep l1 l2
    have h2 : l2.foldl Max.max (l1.foldl Max.max t.minRep) =
        l2.foldl Max.max (Max.max (l1.foldl Max.max t.minRep) t.minRep) := by
      rw [max_eq_left (foldl_max_init_le l1 t.minRep)]
    exact (h1.trans (h2.trans
      (foldl_max_max l2 (l1.foldl Max.max t.minRep) t.minRep))).symm
  · show CompensatedSummation.merge ⟨l1.sum, 0⟩ ⟨l2.sum, 0⟩ =
      ⟨(l1 ++ l2).sum, 0⟩
    rw [CompensatedSummation.merge_eq, CompensatedSummation.mk.injEq]
    simp
  · show CompensatedSummation.merge ⟨(l1.map (fun x => x * x)).sum, 0⟩
      ⟨(l2.map (fun x => x * x)).sum, 0⟩ =
      ⟨((l1 ++ l2).map (fun x => x * x)).sum, 0⟩
    rw [CompensatedSummation.merge_eq, CompensatedSummation.mk.injEq]
    simp

theorem foldl_merge_accumulate (t : PixelTraits) (parts : List (List ℚ)) :
    ∀ m : List ℚ,
      (parts.map (PartialStatistics.accumulate t)).foldl
        PartialStatistics.merge (PartialStatistics.accumulate t m) =
      PartialStatistics.accumulate t (m ++ parts.flatten) := by
  induction parts with
  | nil => intro m; simp
  | cons p ps ih =>
    intro m
    rw [List.map_cons, List.foldl_cons, merge_accumulate, ih,
      List.flatten_cons, ← List.append_assoc]

/-- Modelled from the spec: the whole threaded reduction is exactly the
sequential accumulation over the concatenation of the partitions. -/
theorem reduceParts_eq (t : PixelTraits) (parts : List (List ℚ)) :
    reduceParts t parts = PartialStatistics.accumulate t parts.flatten := by
  have h0 : PartialStatistics.init t = PartialStatistics.accumulate t [] :=
    rfl
  rw [reduceParts, h0, foldl_merge_accumulate]
  rfl

theorem PartialStatistics.merge_right_comm (z x y : PartialStatistics) :
    (z.merge x).merge y = (z.merge y).merge x := by
  apply PartialStatistics.ext
  · show z.count + x.count + y.count = z.count + y.count + x.count
    omega
  · exact min_right_comm z.min x.min y.min
  · exact Max.right_comm z.max x.max y.max
  · show (z.sum.merge x.sum).merge y.sum = (z.sum.merge y.sum).merge x.sum
    simp only [CompensatedSummation.merge_eq, CompensatedSummation.mk.injEq]
    constructor <;> ring_nf
  · show (z.sumOfSquares.merge x.sumOfSquares).merge y.sumOfSquares =
      (z.sumOfSquares.merge y.sumOfSquares).merge x.sumOfSquares
    simp only [CompensatedSummation.merge_eq, CompensatedSummation.mk.injEq]
    constructor <;> ring_nf

/-- Claim C1: with zero samples the reduction reports count 0, mean 0,
variance 0 and sigma 0 (no division by zero), and the min/max outputs hold
the defined sentinels (the sample type's largest and smallest representable
values) rather than any visited-sample value. -/
theorem C1_empty_input (t : PixelTraits) (parts : List (List ℚ))
    (h : parts.flatten = []) :
    (runReduction t parts).count = 0 ∧
    (runReduction t parts).mean = 0 ∧
    (runReduction t parts).variance = 0 ∧
    (runReduction t parts).sigma = 0 ∧
    (runReduction t parts).minimum = t.maxRep ∧
    (runReduction t parts).maximum = t.minRep := by
  have hr : reduceParts t parts = PartialStatistics.init t := by
    rw [reduceParts_eq, h]
    rfl
  simp only [runReduction, hr]
  refine ⟨rfl, rfl, rfl, ?_, rfl, rfl⟩
  show Real.sqrt (Max.max (((0 : ℚ) : ℝ)) 0) = 0
  simp

/-- Claim C1 witness: a concrete empty partitioning with concrete sentinels. -/
theorem C1_empty_input_witness :
    (([[], []] : List (List ℚ)).flatten = []) ∧
    ((runReduction ⟨100, -100⟩ [[], []]).count = 0 ∧
     (runReduction ⟨100, -100⟩ [[], []]).mean = 0 ∧
     (runReduction ⟨100, -100⟩ [[], []]).variance = 0 ∧
     (runReduction ⟨100, -100⟩ [[], []]).sigma = 0 ∧
     (runReduction ⟨100, -100⟩ [[], []]).minimum = (100 : ℚ) ∧
     (runReduction ⟨100, -100⟩ [[], []]).maximum = (-100 : ℚ)) :=
  ⟨rfl, C1_empty_input ⟨100, -100⟩ [[], []] rfl⟩

/-- Claim C2: the derived outputs of every completed reduction satisfy
mean = sum/count for positive count and 0 otherwise, the Bessel-corrected
variance formula for count above 1 and 0 otherwise, and
sigma = sqrt of the variance clamped to 0 from below. -/
theorem C2_derivation_formulas (t : PixelTraits) (parts : List (List ℚ)) :
    (runReduction t parts).mean =
      (if 0 < (runReduction t parts).count then
        (runReduction t parts).sum / ((runReduction t parts).count : ℚ)
      else 0) ∧
    (runReduction t parts).variance =
      (if 1 < (runReduction t parts).count then
        ((runReduction t parts).sumOfSquares -
          ((runReduction t parts).count : ℚ) *
            (runReduction t parts).mean * (runReduction t parts).mean) /
          (((runReduction t parts).count : ℚ) - 1)
      else 0) ∧
    (runReduction t parts).sigma =
      Real.sqrt (Max.max (((runReduction t parts).variance : ℚ) : ℝ) 0) :=
  ⟨rfl, rfl, rfl⟩

/-- Claim C3: two partitionings of the same array with different partition
counts yield the same outputs — over the exact embedding mean, variance,
min, max, sum and sumOfSquares are all equal on the nose. -/
theorem C3_partition_independence (t : PixelTraits)
    (parts1 parts2 : List (List ℚ))
    (hjoin : parts1.flatten = parts2.flatten)
    (_hK : parts1.length ≠ parts2.length) :
    runReduction t parts1 = runReduction t parts2 := by
  rw [runReduction, runReduction, reduceParts_eq, reduceParts_eq, hjoin]

/-- Claim C3 witness: [1,2,3] split into two partitions versus three. -/
theorem C3_partition_independence_witness :
    (([[1, 2], [3]] : List (List ℚ)).flatten =
      ([[1], [2], [3]] : List (List ℚ)).flatten) ∧
    (([[1, 2], [3]] : List (List ℚ)).length ≠
      ([[1], [2], [3]] : List (List ℚ)).length) ∧
    runReduction ⟨100, -100⟩ [[1, 2], [3]] =
      runReduction ⟨100, -100⟩ [[1], [2], [3]] :=
  ⟨rfl, by decide,
    C3_partition_independence ⟨100, -100⟩ [[1, 2], [3]] [[1], [2], [3]]
      rfl (by decide)⟩

/-- Claim C4: merging a fixed set of partials in any order produces the same
GlobalStatistics — count, min and max exactly, and (in the exact embedding)
sum and sumOfSquares exactly as well. -/
theorem C4_merge_order_independence (t : PixelTraits)
    (gs1 gs2 : List PartialStatistics) (hperm : gs1.Perm gs2) :
    gs1.foldl PartialStatistics.merge (PartialStatistics.init t) =
      gs2.foldl PartialStatistics.merge (PartialStatistics.init t) := by
  apply hperm.foldl_eq'
  intro x _hx y _hy z
  exact PartialStatistics.merge_right_comm z x y

/-- Claim C4 witness: two concrete partials merged in both orders. -/
theorem C4_merge_order_independence_witness :
    ([⟨1, 1, 1, ⟨1, 0⟩, ⟨1, 0⟩⟩, ⟨2, 4, 5, ⟨9, 0⟩, ⟨41, 0⟩⟩] :
      List PartialStatistics).Perm
      [⟨2, 4, 5, ⟨9, 0⟩, ⟨41, 0⟩⟩, ⟨1, 1, 1, ⟨1, 0⟩, ⟨1, 0⟩⟩] ∧
    ([⟨1, 1, 1, ⟨1, 0⟩, ⟨1, 0⟩⟩, ⟨2, 4, 5, ⟨9, 0⟩, ⟨41, 0⟩⟩] :
      List PartialStatistics).foldl PartialStatistics.merge
        (PartialStatistics.init ⟨100, -100⟩) =
      ([⟨2, 4, 5, ⟨9, 0⟩, ⟨41, 0⟩⟩, ⟨1, 1, 1, ⟨1, 0⟩, ⟨1, 0⟩⟩] :
        List PartialStatistics).foldl PartialStatistics.merge
        (PartialStatistics.init ⟨100, -100⟩) :=
  ⟨List.Perm.swap _ _ _,
    C4_merge_order_independence ⟨100, -100⟩ _ _ (List.Perm.swap _ _ _)⟩

/-- Claim C5: after visiting P samples the per-partition accumulator has
count P; for a non-empty sample sequence min and max are themselves visited
samples, and min ≤ every visited sample ≤ max; the sum accumulator holds the
total of the values and the sumOfSquares accumulator the total of their
squares.  The range hypothesis states that every sample is representable in
the sample type, i.e. lies between the two sentinels. -/
theorem C5_accumulator_invariant (t : PixelTraits) (l : List ℚ)
    (hrange : ∀ x ∈ l, t.minRep ≤ x ∧ x ≤ t.maxRep) :
    (PartialStatistics.accumulate t l).count = l.length ∧
    (l ≠ [] → (PartialStatistics.accumulate t l).min ∈ l ∧
      (PartialStatistics.accumulate t l).max ∈ l) ∧
    (∀ x ∈ l, (PartialStatistics.accumulate t l).min ≤ x ∧
      x ≤ (PartialStatistics.accumulate t l).max) ∧
    (PartialStatistics.accumulate t l).sum.GetSum = l.sum ∧
    (PartialStatistics.accumulate t l).sumOfSquares.GetSum =
      (l.map (fun x => x * x)).sum := by
  rw [accumulate_eq]
  refine ⟨rfl, ?_, ?_, rfl, rfl⟩
  · intro hne
    constructor
    · show l.foldl Min.min t.maxRep ∈ l
      rcases foldl_min_mem_or l t.maxRep with h | h
      · exact h
      · rcases l with _ | ⟨y, ys⟩
        · exact absurd rfl hne
        · have h1 : (y :: ys).foldl Min.min t.maxRep ≤ y :=
            foldl_min_le_mem (y :: ys) t.maxRep y (List.mem_cons_self y ys)
          have h2 : y ≤ (y :: ys).foldl Min.min t.maxRep := by
            rw [h]
            exact (hrange y (List.mem_cons_self y ys)).2
          rw [le_antisymm h1 h2]
          exact List.mem_cons_self y ys
    · show l.foldl Max.max t.minRep ∈ l
      rcases foldl_max_mem_or l t.minRep with h | h
      · exact h
      · rcases l with _ | ⟨y, ys⟩
        · exact absurd rfl hne
        · have h1 : y ≤ (y :: ys).foldl Max.max t.minRep :=
            foldl_max_mem_le (y :: ys) t.minRep y (List.mem_cons_self y ys)
          have h2 : (y :: ys).foldl Max.max t.minRep ≤ y := by
            rw [h]
            exact (hrange y (List.mem_cons_self y ys)).1
          rw [le_antisymm h2 h1]
          exact List.mem_cons_self y ys
  · intro x hx
    exact ⟨foldl_min_le_mem l t.maxRep x hx, foldl_max_mem_le l t.minRep x hx⟩

/-- Claim C5 witness: the samples 3, 1, 2 with sentinels 100 and -100. -/
theorem C5_accumulator_invariant_witness :
    (∀ x ∈ ([3, 1, 2] : List ℚ), (-100 : ℚ) ≤ x ∧ x ≤ 100) ∧
    ((PartialStatistics.accumulate ⟨100, -100⟩ [3, 1, 2]).count =
      ([3, 1, 2] : List ℚ).length ∧
    (([3, 1, 2] : List ℚ) ≠ [] →
      (PartialStatistics.accumulate ⟨100, -100⟩ [3, 1, 2]).min ∈
        ([3, 1, 2] : List ℚ) ∧
      (PartialStatistics.accumulate ⟨100, -100⟩ [3, 1, 2]).max ∈
        ([3, 1, 2] : List ℚ)) ∧
    (∀ x ∈ ([3, 1, 2] : List ℚ),
      (PartialStatistics.accumulate ⟨100, -100⟩ [3, 1, 2]).min ≤ x ∧
      x ≤ (PartialStatistics.accumulate ⟨100, -100⟩ [3, 1, 2]).max) ∧
    (PartialStatistics.accumulate ⟨100, -100⟩ [3, 1, 2]).sum.GetSum =
      ([3, 1, 2] : List ℚ).sum ∧
    (PartialStatistics.accumulate ⟨100, -100⟩ [3, 1, 2]).sumOfSquares.GetSum
      = (([3, 1, 2] : List ℚ).map (fun x => x * x)).sum) :=
  ⟨by decide, C5_accumulator_invariant ⟨100, -100⟩ [3, 1, 2] (by decide)⟩

/-- Claim C6: on the array [1,2,3,4,5], under any partitioning whose regions
concatenate to it, the reduction returns count 5, sum 15, mean 3, min 1,
max 5, sample variance 5/2 and sigma equal to the square root of 5/2.  The
sentinel hypotheses say the five samples are representable. -/
theorem C6_known_input (t : PixelTraits) (parts : List (List ℚ))
    (hjoin : parts.flatten = [1, 2, 3, 4, 5])
    (hmax : 5 ≤ t.maxRep) (hmin : t.minRep ≤ 1) :
    (runReduction t parts).count = 5 ∧
    (runReduction t parts).sum = 15 ∧
    (runReduction t parts).mean = 3 ∧
    (runReduction t parts).minimum = 1 ∧
    (runReduction t parts).maximum = 5 ∧
    (runReduction t parts).variance = 5 / 2 ∧
    (runReduction t parts).sigma = Real.sqrt (5 / 2) := by
  have hred : reduceParts t parts = ⟨5, 1, 5, ⟨15, 0⟩, ⟨55, 0⟩⟩ := by
    rw [reduceParts_eq, hjoin, accumulate_eq]
    apply PartialStatistics.ext
    · rfl
    · show ([1, 2, 3, 4, 5] : List ℚ).foldl Min.min t.maxRep = 1
      have h1 : Min.min t.maxRep 1 = 1 :=
        min_eq_right (le_trans (by norm_num) hmax)
      simp only [List.foldl_cons, List.foldl_nil, h1]
      norm_num [min_def]
    · show ([1, 2, 3, 4, 5] : List ℚ).foldl Max.max t.minRep = 5
      have h1 : Max.max t.minRep 1 = 1 := max_eq_right hmin
      simp only [List.foldl_cons, List.foldl_nil, h1]
      norm_num [max_def]
    · show (⟨([1, 2, 3, 4, 5] : List ℚ).sum, 0⟩ : CompensatedSummation) =
        ⟨15, 0⟩
      norm_num [List.sum_cons]
    · show (⟨(([1, 2, 3, 4, 5] : List ℚ).map (fun x => x * x)).sum, 0⟩ :
        CompensatedSummation) = ⟨55, 0⟩
      norm_num [List.sum_cons]
  simp only [runReduction, hred]
  refine ⟨rfl, rfl, ?_, rfl, rfl, ?_, ?_⟩
  · show (if 0 < 5 then (15 : ℚ) / ((5 : ℕ) : ℚ) else 0) = 3
    norm_num
  · show (if 1 < 5 then
        ((55 : ℚ) - ((5 : ℕ) : ℚ) * (if 0 < 5 then (15 : ℚ) / ((5 : ℕ) : ℚ)
          else 0) * (if 0 < 5 then (15 : ℚ) / ((5 : ℕ) : ℚ) else 0)) /
          (((5 : ℕ) : ℚ) - 1)
      else 0) = 5 / 2
    norm_num
  · show (AfterThreadedGenerateData ⟨5, 1, 5, ⟨15, 0⟩, ⟨55, 0⟩⟩).sigma =
      Real.sqrt (5 / 2)
    have hv : (AfterThreadedGenerateData
        ⟨5, 1, 5, ⟨15, 0⟩, ⟨55, 0⟩⟩).variance = 5 / 2 := by
      show (if 1 < 5 then
          ((55 : ℚ) - ((5 : ℕ) : ℚ) * (if 0 < 5 then (15 : ℚ) / ((5 : ℕ) : ℚ)
            else 0) * (if 0 < 5 then (15 : ℚ) / ((5 : ℕ) : ℚ) else 0)) /
            (((5 : ℕ) : ℚ) - 1)
        else 0) = 5 / 2
      norm_num
    rw [StatisticsResult.sigma, hv]
    norm_num

/-- Claim C6 witness: the partitioning of section 8 of the spec. -/
theorem C6_known_input_witness :
    (([[1, 2], [3], [4, 5]] : List (List ℚ)).flatten = [1, 2, 3, 4, 5]) ∧
    ((5 : ℚ) ≤ 100) ∧ ((-100 : ℚ) ≤ 1) ∧
    ((runReduction ⟨100, -100⟩ [[1, 2], [3], [4, 5]]).count = 5 ∧
     (runReduction ⟨100, -100⟩ [[1, 2], [3], [4, 5]]).sum = 15 ∧
     (runReduction ⟨100, -100⟩ [[1, 2], [3], [4, 5]]).mean = 3 ∧
     (runReduction ⟨100, -100⟩ [[1, 2], [3], [4, 5]]).minimum = 1 ∧
     (runReduction ⟨100, -100⟩ [[1, 2], [3], [4, 5]]).maximum = 5 ∧
     (runReduction ⟨100, -100⟩ [[1, 2], [3], [4, 5]]).variance = 5 / 2 ∧
     (runReduction ⟨100, -100⟩ [[1, 2], [3], [4, 5]]).sigma =
       Real.sqrt (5 / 2)) :=
  ⟨rfl, by norm_num, by norm_num,
    C6_known_input ⟨100, -100⟩ [[1, 2], [3], [4, 5]] rfl
      (by norm_num) (by norm_num)⟩

/-- Claim C7: the reduction is deterministic and reuses no state across
runs — whatever persistent accumulator state the filter object carries when
a run starts, the run produces the same state and outputs, and a second run
on the same partitioned array reproduces the first run's outputs
identically. -/
theorem C7_deterministic_reruns (t : PixelTraits)
    (s1 s2 : PartialStatistics) (parts : List (List ℚ)) :
    runFilter t s1 parts = runFilter t s2 parts ∧
    (runFilter t (runFilter t s1 parts).1 parts).2 =
      (runFilter t s1 parts).2 :=
  ⟨rfl, rfl⟩

/-- Claim C8: the BinaryStatisticsOpeningImageFilter constructor leaves the
filter with OutputBackgroundValue at the output pixel type's nonpositive
minimum, InputForegroundValue at its maximum, FullyConnected and
ReverseOrdering false, Lambda 0, Attribute MEAN, and two required inputs. -/
theorem C8_constructor_defaults (α : Type) (nt : OutputPixelTraits α) :
    (mkBinaryStatisticsOpeningImageFilter nt).m_OutputBackgroundValue =
      nt.NonpositiveMin ∧
    (mkBinaryStatisticsOpeningImageFilter nt).m_InputForegroundValue =
      nt.maxValue ∧
    (mkBinaryStatisticsOpeningImageFilter nt).m_FullyConnected = false ∧
    (mkBinaryStatisticsOpeningImageFilter nt).m_ReverseOrdering = false ∧
    (mkBinaryStatisticsOpeningImageFilter nt).m_Lambda = 0 ∧
    (mkBinaryStatisticsOpeningImageFilter nt).m_Attribute =
      AttributeType.MEAN ∧
    (mkBinaryStatisticsOpeningImageFilter nt).numberOfRequiredInputs = 2 :=
  ⟨rfl, rfl, rfl, rfl, rfl, rfl, rfl⟩

/-- Claim C9: GenerateData configures the internal valuator to compute the
perimeter exactly when the attribute is PERIMETER or ROUNDNESS, the Feret
diameter exactly when the attribute is FERET_DIAMETER, and never the
histogram. -/
theorem C9_valuator_flags (attr : AttributeType) :
    ((configureValuator attr).computePerimeter = true ↔
      (attr = AttributeType.PERIMETER ∨ attr = AttributeType.ROUNDNESS)) ∧
    ((configureValuator attr).computeFeretDiameter = true ↔
      attr = AttributeType.FERET_DIAMETER) ∧
    (configureValuator attr).computeHistogram = false := by
  cases attr <;> exact ⟨by decide, by decide, by decide⟩

/-- Claim C10: with a non-null input, GenerateInputRequestedRegion sets the
input's requested region to the input's largest possible region, and
EnlargeOutputRequestedRegion sets the output's requested region to the
output's largest possible region; in both cases the largest possible region
and all remaining image state are untouched. -/
theorem C10_whole_image_regions (ρ δ : Type) (superRequested : ρ)
    (img out : ImageState ρ δ) :
    GenerateInputRequestedRegion superRequested (some img) =
      some ⟨img.largestPossibleRegion, img.largestPossibleRegion,
        img.payload⟩ ∧
    EnlargeOutputRequestedRegion out =
      ⟨out.largestPossibleRegion, out.largestPossibleRegion, out.payload⟩ :=
  ⟨rfl, rfl⟩

end ITK
